import Mathlib

/-!
Shallow embedding of the `cli-starter` scaffolding tool.

Sources embedded:
- `src/prompts/index.mjs` — `getProjectInfo` (metadata resolver)
- `src/utils/fs.mjs` — `copyTemplate` (template materializer)
- `src/utils/npm.mjs` — `updatePackageJson` (manifest patcher)
- `src/commands/create.mjs` — `createCommand` (orchestrator)

JavaScript strings become Lean `String`; JS truthiness of strings is made
explicit (`jsOrStr`); the interactive prompt layer is modelled by an
`Answers` record holding the user's replies, with `Option` answers for
prompts that offer a default (inquirer substitutes the default on empty
input) and a list of attempts for the single validated prompt (the code
re-prompts until the validator accepts).  File-system effects are modelled
by explicit values: the template tree is an inductive tree, the produced
target tree is a list of written files, and fallibility of per-entry I/O is
an injected predicate on source paths.
-/

namespace CliStarter

/-- Resolved project metadata record, as returned by `getProjectInfo`
(`src/prompts/index.mjs`). All fields are strings in the JS code. -/
structure ProjectMetadata where
  name : String
  title : String
  description : String
  author : String
  license : String
  email : String
deriving Repr, DecidableEq

/-- Result of `getGitUser` (`src/utils/git.mjs`): git user name and email,
empty strings on lookup failure. -/
structure GitUser where
  name : String
  email : String
deriving Repr, DecidableEq

/-- The four licenses offered by the `select` prompt in
`src/prompts/index.mjs`. -/
inductive License where
  | MIT | ISC | Apache20 | GPL30
deriving Repr, DecidableEq

/-- The `value` string of each `select` choice. -/
def License.val : License → String
  | .MIT => "MIT"
  | .ISC => "ISC"
  | .Apache20 => "Apache-2.0"
  | .GPL30 => "GPL-3.0"

/-- The interactive answers a user supplies to the prompts of
`getProjectInfo`.  `nameAttempts` is the stream of raw inputs to the
validated package-name prompt (the prompt rejects and re-asks until the
validator accepts, so the resolved value is the first valid attempt).
`title`, `author` and `license` prompts have defaults: `none` models the
user accepting the default (inquirer returns the default on empty input). -/
structure Answers where
  nameAttempts : List String
  title : Option String
  description : String
  author : Option String
  license : Option License
deriving Repr

/-- JS `a || b` for an optional string argument: `undefined` and the empty
string are falsy, any other string is truthy. -/
def jsOrStr (o : Option String) (d : String) : String :=
  match o with
  | none => d
  | some s => if s = "" then d else s

/-- Character class of the validation regex in `src/prompts/index.mjs`:
ASCII letters, digits, hyphen, underscore. -/
def validChar (c : Char) : Bool :=
  c.isAlpha || c.isDigit || c = '-' || c = '_'

/-- The validator of the package-name prompt: JS regex test against
a pattern requiring one or more characters of the restricted charset. -/
def validName (s : String) : Bool :=
  !(s = "") && s.data.all validChar

/-- An inquirer `input` prompt with a `validate` callback: the prompt
keeps re-asking until an attempt passes the validator; `none` when the
supplied attempt stream never produces a valid answer (the suspension
never resolves). -/
def promptValidated (valid : String → Bool) : List String → Option String
  | [] => none
  | a :: rest => if valid a then some a else promptValidated valid rest

/-- Default title derivation of `src/prompts/index.mjs`:
JS `s.charAt(0).toUpperCase() + s.slice(1).replace(hyphen-global, ' ')`.
The first character is uppercased; hyphens are replaced by spaces only in
the remainder (`slice(1)`). On the empty string JS yields the empty
string. -/
def defaultTitle (s : String) : String :=
  match s.data with
  | [] => ""
  | c :: rest => ⟨c.toUpper :: rest.map (fun d => if d = '-' then ' ' else d)⟩

/-- `getProjectInfo(name, options)` of `src/prompts/index.mjs`.
`name` is the optional positional CLI argument, `yes` the `--yes` flag,
`g` the result of `getGitUser`, `ans` the interactive answers.
Returns `none` only when the interactive validated name prompt never
receives a valid input. -/
def getProjectInfo (name : Option String) (yes : Bool) (g : GitUser)
    (ans : Answers) : Option ProjectMetadata :=
  if yes then
    let directoryName := jsOrStr name "cli-app"
    some { name := directoryName
           title := defaultTitle directoryName
           description := ""
           author := g.name
           license := "MIT"
           email := g.email }
  else
    let pn? : Option String :=
      match name with
      | some s => if s = "" then promptValidated validName ans.nameAttempts else some s
      | none => promptValidated validName ans.nameAttempts
    match pn? with
    | none => none
    | some packageName =>
      some { name := packageName
             title := ans.title.getD (defaultTitle packageName)
             description := ans.description
             author := ans.author.getD g.name
             license := (ans.license.getD .MIT).val
             email := g.email }

/-! ## Template materializer (`copyTemplate`, `src/utils/fs.mjs`) -/

/-- JS `s.replace(pat, repl)` with a string pattern: only the FIRST
occurrence of `pat` is replaced (list-of-characters form). -/
def replaceFirstL (pat repl : List Char) : List Char → List Char
  | [] => []
  | c :: rest =>
    if pat.isPrefixOf (c :: rest) then repl ++ (c :: rest).drop pat.length
    else c :: replaceFirstL pat repl rest

/-- JS `s.replace(pat, repl)` with a string pattern: only the first
occurrence is replaced. -/
def jsReplaceFirst (s pat repl : String) : String :=
  ⟨replaceFirstL pat.data repl.data s.data⟩

/-- Whether `pat` occurs as a contiguous substring of the list. -/
def containsSub (pat : List Char) : List Char → Bool
  | [] => pat.isEmpty
  | c :: rest => pat.isPrefixOf (c :: rest) || containsSub pat rest

/-- JS `s.replaceAll`-style global substring replacement
(list-of-characters form), used to model the Handlebars placeholder
expansion.  `fuel` bounds the recursion by the input length so the
definition is structural and evaluates in the kernel; each step consumes
at least one character, so `fuel = s.length` is always enough. -/
def replaceAllAux (pat repl : List Char) : Nat → List Char → List Char
  | 0, l => l
  | _ + 1, [] => []
  | n + 1, c :: rest =>
    if pat.isPrefixOf (c :: rest) && !pat.isEmpty then
      repl ++ replaceAllAux pat repl n ((c :: rest).drop pat.length)
    else c :: replaceAllAux pat repl n rest

/-- Global (every-occurrence) substring replacement on strings. -/
def jsReplaceAll (s pat repl : String) : String :=
  ⟨replaceAllAux pat.data repl.data s.data.length s.data⟩

/-- `String.endsWith`, in a form that evaluates in the kernel. -/
def jsEndsWith (s suffix : String) : Bool :=
  suffix.data.isSuffixOf s.data

/-- The target file name computed by `copyTemplate` for every entry:
`file.name.replace(".template", "")` — the first occurrence of the
substring `.template` is removed, wherever it occurs in the name. -/
def targetFileName (name : String) : String :=
  jsReplaceFirst name ".template" ""

/-- Model of `Handlebars.compile(content)(variables)` restricted to the
simple double-brace placeholders the scaffold uses: each
`\x7b\x7bfield\x7d\x7d` marker is replaced by the corresponding
metadata field. -/
def renderTemplate (vars : ProjectMetadata) (s : String) : String :=
  jsReplaceAll (jsReplaceAll (jsReplaceAll (jsReplaceAll (jsReplaceAll
    (jsReplaceAll s "\x7b\x7bname\x7d\x7d" vars.name)
    "\x7b\x7btitle\x7d\x7d" vars.title)
    "\x7b\x7bdescription\x7d\x7d" vars.description)
    "\x7b\x7bauthor\x7d\x7d" vars.author)
    "\x7b\x7blicense\x7d\x7d" vars.license)
    "\x7b\x7bemail\x7d\x7d" vars.email

/-- A node of the template tree walked by `copyTemplate`: a directory
with entries, or a file with its content and permission mode. -/
inductive TEntry where
  | dir : String → List TEntry → TEntry
  | file : String → String → Nat → TEntry
deriving Repr

/-- A file written into the target tree. `path` is the relative path of
the written file (components), `mode` its permission bits (`fs.writeFile`
creates mode `0o644` here; `fs.copy` preserves the source mode;
`fs.chmod` overrides). `fromTemplate` is ghost provenance: the file was
produced by the `.template`-suffix substitution branch. -/
structure OutFile where
  path : List String
  content : String
  mode : Nat
  fromTemplate : Bool
deriving Repr, DecidableEq

/-- Result of one `copyTemplate` invocation: `ok` is its boolean return
value (`false` when its own `catch` fired), `files` the files written by
it and its recursive calls, `errLogged` whether any `catch` at any depth
called `logger.error`. -/
structure CopyRes where
  ok : Bool
  files : List OutFile
  errLogged : Bool
deriving Repr, DecidableEq

/-- Default mode of files created by `fs.writeFile` (0o644). -/
def writeFileMode : Nat := 420

/-- Mode set by `fs.chmod(destPath, 0o755)` on the entry-point script. -/
def execMode : Nat := 493

/-- The body of `copyTemplate`'s `for` loop over directory entries
(`src/utils/fs.mjs`): processes entries in order under source path `sp`
and target path `tp`.  `fails` injects per-entry I/O failure: when the
I/O for an entry's source path fails, the exception is caught by the
`try`/`catch` of the CURRENT invocation, which logs the error and
returns `false` — entries after it at the same level are skipped, but a
parent invocation (which ignores the recursive call's return value)
continues with its remaining entries.  For a directory entry the inner
`if` models the recursive `copyTemplate` call: its own directory read may
fail (caught by the recursive call's `catch`), otherwise its entries are
processed; either way its boolean result is discarded by the caller. -/
def copyEntries (fails : List String → Bool) (vars : ProjectMetadata)
    (sp tp : List String) : List TEntry → CopyRes
  | [] => ⟨true, [], false⟩
  | .dir name children :: rest =>
    let c :=
      if fails (sp ++ [name]) then (⟨false, [], true⟩ : CopyRes)
      else copyEntries fails vars (sp ++ [name]) (tp ++ [targetFileName name]) children
    let r := copyEntries fails vars sp tp rest
    ⟨r.ok, c.files ++ r.files, c.errLogged || r.errLogged⟩
  | .file name content mode :: rest =>
    if fails (sp ++ [name]) then ⟨false, [], true⟩
    else
      let out : OutFile :=
        if jsEndsWith name ".template" then
          { path := tp ++ [targetFileName name]
            content := renderTemplate vars content
            mode := if targetFileName name = "index.mjs" then execMode else writeFileMode
            fromTemplate := true }
        else if name = "gitignore" then
          { path := tp ++ [".gitignore"], content := content
            mode := writeFileMode, fromTemplate := false }
        else
          { path := tp ++ [targetFileName name], content := content
            mode := mode, fromTemplate := false }
      let r := copyEntries fails vars sp tp rest
      ⟨r.ok, out :: r.files, r.errLogged⟩

/-- A top-level `copyTemplate(sourcePath, destPath, variables)` call: the
initial directory read may itself fail (caught by this invocation's own
`catch`); otherwise its entries are processed. -/
def copyTemplate (fails : List String → Bool) (vars : ProjectMetadata)
    (sp tp : List String) (entries : List TEntry) : CopyRes :=
  if fails sp then ⟨false, [], true⟩
  else copyEntries fails vars sp tp entries

/-- Failure-free I/O environment. -/
def noFail : List String → Bool := fun _ => false

/-! ## Manifest patcher (`updatePackageJson`, `src/utils/npm.mjs`) -/

/-- A JSON value as far as `package.json` manipulation needs it: strings,
and objects as ordered key/value lists (JS object property order). -/
inductive JVal where
  | str : String → JVal
  | obj : List (String × JVal) → JVal
deriving Repr

/-- JS property assignment `o[k] = v` on an object modelled as an ordered
association list: an existing key keeps its position and gets the new
value; a fresh key is appended at the end. -/
def setKey (o : List (String × JVal)) (k : String) (v : JVal) :
    List (String × JVal) :=
  if o.any (fun p => p.1 = k) then
    o.map (fun p => if p.1 = k then (k, v) else p)
  else o ++ [(k, v)]

/-- The pure core of `updatePackageJson(targetDir, projectInfo)`
(`src/utils/npm.mjs`): overwrites `name`, `description`, `author`,
`license` and sets `bin` to an object mapping the project name to
`"index.mjs"`; everything else of the parsed manifest is untouched. -/
def updatePackageJson (pkg : List (String × JVal)) (info : ProjectMetadata) :
    List (String × JVal) :=
  setKey (setKey (setKey (setKey (setKey pkg
    "name" (.str info.name))
    "description" (.str info.description))
    "author" (.str info.author))
    "license" (.str info.license))
    "bin" (.obj [(info.name, .str "index.mjs")])

/-! ## Orchestrator (`createCommand`, `src/commands/create.mjs`) -/

/-- Observable outcome of one `createCommand` run: `exitCode` (1 via
`process.exit(1)` on the target-directory check, 0 at normal return),
whether the template-copy phase ran (`materialized`), the files written
into the target, whether the final success banner was logged, and the
result of the `copyTemplate` call (its boolean return value is computed
by the code but never inspected). -/
structure CreateRes where
  exitCode : Nat
  materialized : Bool
  files : List OutFile
  successLogged : Bool
  copyOk : Bool
  copyErrLogged : Bool
deriving Repr

/-- `createCommand(name, options)` of `src/commands/create.mjs`, after
metadata resolution: `target` is the state of the target directory
(`none` = does not exist, `some l` = exists with entries `l`), `tpl` the
scaffold template tree, `fails` the I/O failure environment for the walk.
The code exits with code 1 whenever the target directory exists —
whether or not it is empty (the two cases differ only in the logged
message) — before creating or writing anything; otherwise it runs
`copyTemplate`, ignores its boolean result, patches the manifest, runs
the best-effort git/npm steps and logs the success banner. -/
def createCommand (fails : List String → Bool) (target : Option (List String))
    (tpl : List TEntry) (info : ProjectMetadata) : CreateRes :=
  match target with
  | some _ =>
    { exitCode := 1, materialized := false, files := []
      successLogged := false, copyOk := true, copyErrLogged := false }
  | none =>
    let r := copyTemplate fails info [] [] tpl
    { exitCode := 0, materialized := true, files := r.files
      successLogged := true, copyOk := r.ok, copyErrLogged := r.errLogged }

/-! ## Shared concrete data for witnesses and counterexamples -/

/-- A concrete metadata record, the one of spec property P6. -/
def demoInfo : ProjectMetadata :=
  { name := "demo-cli", title := "Demo cli", description := "d"
    author := "A", license := "ISC", email := "a@b" }

/-- A small concrete template tree. -/
def demoTpl : List TEntry :=
  [ .file "index.mjs.template" "hello" 420,
    .file "gitignore" "node_modules" 420,
    .dir "src" [.file "util.js" "x" 420] ]

/-- An I/O environment in which every operation fails. -/
def allFail : List String → Bool := fun _ => true

/-- A concrete starting manifest, shaped like the scaffold's
`package.json`. -/
def demoPkg : List (String × JVal) :=
  [ ("name", .str "cli-app"),
    ("version", .str "1.0.0"),
    ("description", .str ""),
    ("main", .str "index.mjs"),
    ("bin", .obj [("cli-app", .str "index.mjs")]),
    ("license", .str "MIT"),
    ("author", .str "") ]

/-! ## Helper lemmas -/

/-- A validated prompt only ever resolves to an input accepted by its
validator. -/
theorem promptValidated_valid {valid : String → Bool} :
    ∀ {l : List String} {a : String},
      promptValidated valid l = some a → valid a = true := by
  intro l
  induction l with
  | nil => intro a h; simp [promptValidated] at h
  | cons x rest ih =>
    intro a h
    by_cases hx : valid x = true
    · simp [promptValidated, hx] at h; subst h; exact hx
    · simp [promptValidated, hx] at h; exact ih h

/-- A name accepted by the charset validator is non-empty. -/
theorem validName_ne_empty {s : String} (h : validName s = true) : s ≠ "" := by
  intro hs; subst hs; simp [validName] at h

/-- `List.lookup` distributes over append: the left list is consulted
first. -/
theorem lookup_append (l₁ l₂ : List (String × JVal)) (a : String) :
    (l₁ ++ l₂).lookup a =
      match l₁.lookup a with
      | some v => some v
      | none => l₂.lookup a := by
  induction l₁ with
  | nil => simp
  | cons p rest ih =>
    rcases p with ⟨k, v⟩
    by_cases h : a = k
    · simp [List.lookup_cons, h]
    · have hb : (a == k) = false := by simp [h]
      simp [List.lookup_cons, hb, ih]

/-- Looking up the assigned key in the in-place-update map of `setKey`. -/
theorem lookup_map_set (k : String) (v : JVal) (o : List (String × JVal)) :
    (o.map (fun p => if p.1 = k then (k, v) else p)).lookup k =
      if o.any (fun p => p.1 = k) then some v else none := by
  induction o with
  | nil => simp
  | cons p rest ih =>
    rcases p with ⟨k1, v1⟩
    by_cases h : k1 = k
    · simp [List.lookup_cons, h]
    · have hb : (k == k1) = false := beq_false_of_ne (fun hk => h hk.symm)
      have hd : decide (k1 = k) = false := decide_eq_false h
      simp [List.lookup_cons, h, hb, ih]
      rw [hd, Bool.false_or]

/-- The in-place-update map of `setKey` leaves other keys' bindings
alone. -/
theorem lookup_map_set_ne (k k' : String) (v : JVal) (h : k' ≠ k)
    (o : List (String × JVal)) :
    (o.map (fun p => if p.1 = k then (k, v) else p)).lookup k' =
      o.lookup k' := by
  induction o with
  | nil => simp
  | cons p rest ih =>
    rcases p with ⟨k1, v1⟩
    by_cases h1 : k1 = k
    · subst h1
      have hb : (k' == k1) = false := by simp [h]
      simp [List.lookup_cons, hb, ih]
    · by_cases h2 : k' = k1
      · simp [List.lookup_cons, h1, h2]
      · have hb : (k' == k1) = false := by simp [h2]
        simp [List.lookup_cons, h1, hb, ih]

/-- A key on which `List.any` fails has no binding. -/
theorem lookup_eq_none_of_any_eq_false (k : String)
    (o : List (String × JVal)) (h : o.any (fun p => p.1 = k) = false) :
    o.lookup k = none := by
  induction o with
  | nil => simp
  | cons p rest ih =>
    rcases p with ⟨k1, v1⟩
    simp only [List.any_cons, Bool.or_eq_false_iff, decide_eq_false_iff_not] at h
    have hb : (k == k1) = false := beq_false_of_ne (fun hk => h.1 hk.symm)
    simp [List.lookup_cons, hb, ih h.2]

/-- After `setKey o k v`, looking up `k` yields `v`. -/
theorem lookup_setKey_self (o : List (String × JVal)) (k : String) (v : JVal) :
    (setKey o k v).lookup k = some v := by
  unfold setKey
  by_cases hany : o.any (fun p => p.1 = k) = true
  · simp [hany, lookup_map_set]
  · rw [if_neg hany, lookup_append,
      lookup_eq_none_of_any_eq_false k o (Bool.not_eq_true _ ▸ hany)]
    simp [List.lookup_cons]

/-- `setKey o k v` does not change the binding of any other key. -/
theorem lookup_setKey_ne (o : List (String × JVal)) (k k' : String) (v : JVal)
    (h : k' ≠ k) : (setKey o k v).lookup k' = o.lookup k' := by
  unfold setKey
  by_cases hany : o.any (fun p => p.1 = k) = true
  · simp [hany, lookup_map_set_ne k k' v h]
  · rw [if_neg hany, lookup_append]
    cases hl : o.lookup k' with
    | some v' => simp
    | none =>
      have hb : (k' == k) = false := by simp [h]
      simp [List.lookup_cons, hb]

/-! ## Claims -/

/-- C9: with the skip-prompts flag set and no name argument, metadata
resolution returns the fixed fallback name `cli-app`, empty description,
MIT license, and the non-empty derived title `Cli app`, and the result is
independent of any interactive answers (no interactive suspension). -/
theorem c9_skip_prompts_defaults (g : GitUser) (ans ans' : Answers) :
    getProjectInfo none true g ans =
      some { name := "cli-app", title := "Cli app", description := ""
             author := g.name, license := "MIT", email := g.email } ∧
    getProjectInfo none true g ans = getProjectInfo none true g ans' ∧
    ("Cli app" : String) ≠ "" := by
  refine ⟨rfl, rfl, by decide⟩

/-- C7: after the manifest patch, `name`, `description`, `author` and
`license` equal the metadata values, and `bin` maps the metadata name to
the entry-point script `index.mjs` — for every starting manifest. -/
theorem c7_manifest_fidelity (pkg : List (String × JVal))
    (info : ProjectMetadata) :
    (updatePackageJson pkg info).lookup "name" = some (.str info.name) ∧
    (updatePackageJson pkg info).lookup "description" = some (.str info.description) ∧
    (updatePackageJson pkg info).lookup "author" = some (.str info.author) ∧
    (updatePackageJson pkg info).lookup "license" = some (.str info.license) ∧
    (updatePackageJson pkg info).lookup "bin" =
      some (.obj [(info.name, .str "index.mjs")]) := by
  unfold updatePackageJson
  refine ⟨?_, ?_, ?_, ?_, ?_⟩
  · rw [lookup_setKey_ne _ _ _ _ (by decide), lookup_setKey_ne _ _ _ _ (by decide),
      lookup_setKey_ne _ _ _ _ (by decide), lookup_setKey_ne _ _ _ _ (by decide),
      lookup_setKey_self]
  · rw [lookup_setKey_ne _ _ _ _ (by decide), lookup_setKey_ne _ _ _ _ (by decide),
      lookup_setKey_ne _ _ _ _ (by decide), lookup_setKey_self]
  · rw [lookup_setKey_ne _ _ _ _ (by decide), lookup_setKey_ne _ _ _ _ (by decide),
      lookup_setKey_self]
  · rw [lookup_setKey_ne _ _ _ _ (by decide), lookup_setKey_self]
  · rw [lookup_setKey_self]

/-- C8: the manifest patch is a frame: every key other than `name`,
`description`, `author`, `license` and `bin` keeps exactly its previous
binding. -/
theorem c8_manifest_frame (pkg : List (String × JVal)) (info : ProjectMetadata)
    (k : String) (h1 : k ≠ "name") (h2 : k ≠ "description") (h3 : k ≠ "author")
    (h4 : k ≠ "license") (h5 : k ≠ "bin") :
    (updatePackageJson pkg info).lookup k = pkg.lookup k := by
  unfold updatePackageJson
  rw [lookup_setKey_ne _ _ _ _ h5, lookup_setKey_ne _ _ _ _ h4,
    lookup_setKey_ne _ _ _ _ h3, lookup_setKey_ne _ _ _ _ h2,
    lookup_setKey_ne _ _ _ _ h1]

/-- Witness for C8 at a concrete manifest: the `version` key survives the
patch unchanged. -/
theorem c8_manifest_frame_witness :
    (updatePackageJson demoPkg demoInfo).lookup "version" =
      demoPkg.lookup "version" :=
  c8_manifest_frame demoPkg demoInfo "version" (by decide) (by decide)
    (by decide) (by decide) (by decide)

/-- C3 counterexample: the charset-invalid positional name `bad name!`
(it contains a space and an exclamation mark) is accepted verbatim by
metadata resolution — in skip-prompts mode and in interactive mode alike —
with no validation failure, so the resolved `name` is not charset-valid. -/
theorem c3_counterexample :
    getProjectInfo (some "bad name!") true ⟨"", ""⟩ ⟨[], none, "", none, none⟩ =
      some ⟨"bad name!", "Bad name!", "", "", "MIT", ""⟩ ∧
    getProjectInfo (some "bad name!") false ⟨"", ""⟩ ⟨[], none, "", none, none⟩ =
      some ⟨"bad name!", "Bad name!", "", "", "MIT", ""⟩ ∧
    validName "bad name!" = false := by
  refine ⟨by decide, by decide, by decide⟩

/-- C3 (amended): charset validation applies only to the interactively
prompted name; a name supplied positionally is used verbatim without
validation in both modes, so the resolved name need not be charset-valid.
The resolved name is, however, always non-empty, and it is charset-valid
whenever it came from the interactive prompt. -/
theorem c3_name_resolution (n : Option String) (yes : Bool) (g : GitUser)
    (ans : Answers) (md : ProjectMetadata) :
    (getProjectInfo n yes g ans = some md → md.name ≠ "") ∧
    (getProjectInfo none false g ans = some md → validName md.name = true) ∧
    (∀ s, s ≠ "" → getProjectInfo (some s) false g ans = some md →
      md.name = s) := by
  refine ⟨?_, ?_, ?_⟩
  · intro h
    cases yes with
    | true =>
      simp only [getProjectInfo, if_pos] at h
      injection h with h
      subst h
      cases n with
      | none => simp [jsOrStr]
      | some s =>
        by_cases hs : s = ""
        · simp [jsOrStr, hs]
        · simp [jsOrStr, hs]
    | false =>
      simp only [getProjectInfo, if_neg] at h
      cases n with
      | none =>
        cases hpv : promptValidated validName ans.nameAttempts with
        | none => rw [hpv] at h; exact absurd h (by simp)
        | some a =>
          rw [hpv] at h
          simp only at h
          injection h with h
          subst h
          exact validName_ne_empty (promptValidated_valid hpv)
      | some s =>
        by_cases hs : s = ""
        · subst hs
          simp only [if_pos] at h
          cases hpv : promptValidated validName ans.nameAttempts with
          | none => rw [hpv] at h; exact absurd h (by simp)
          | some a =>
            rw [hpv] at h
            simp only at h
            injection h with h
            subst h
            exact validName_ne_empty (promptValidated_valid hpv)
        · simp only [if_neg hs] at h
          injection h with h
          subst h
          simp [hs]
  · intro h
    simp only [getProjectInfo, Bool.false_eq_true, if_neg] at h
    cases hpv : promptValidated validName ans.nameAttempts with
    | none => rw [hpv] at h; exact absurd h (by simp)
    | some a =>
      rw [hpv] at h
      simp only at h
      injection h with h
      subst h
      exact promptValidated_valid hpv
  · intro s hs h
    simp only [getProjectInfo, Bool.false_eq_true, if_neg, if_neg hs] at h
    injection h with h
    subst h
    rfl

/-- Witness for C3 (amended), instantiated at concrete inputs. -/
theorem c3_name_resolution_witness :
    (getProjectInfo (some "ok-name") true ⟨"G", "e"⟩ ⟨[], none, "", none, none⟩ =
        some ⟨"ok-name", "Ok name", "", "G", "MIT", "e"⟩ → ("ok-name" : String) ≠ "") ∧
    (getProjectInfo none false ⟨"G", "e"⟩ ⟨["good_name"], none, "x", none, none⟩ =
        some ⟨"good_name", "Good name", "x", "G", "MIT", "e"⟩ →
      validName "good_name" = true) ∧
    ("ok-name" : String) ≠ "" := by
  have h1 := (c3_name_resolution (some "ok-name") true ⟨"G", "e"⟩
    ⟨[], none, "", none, none⟩ ⟨"ok-name", "Ok name", "", "G", "MIT", "e"⟩).1
  have h2 := (c3_name_resolution none false ⟨"G", "e"⟩
    ⟨["good_name"], none, "x", none, none⟩
    ⟨"good_name", "Good name", "x", "G", "MIT", "e"⟩).2.1
  exact ⟨h1, h2, h1 (by decide)⟩

/-- C10 counterexample: for the charset-valid name `-app`, the derived
default title keeps the leading hyphen — the code only replaces hyphens in
`slice(1)` — so not every hyphen is replaced by a space. -/
theorem c10_counterexample :
    defaultTitle "-app" = "-app" ∧
    '-' ∈ (defaultTitle "-app").data ∧
    defaultTitle "-app" ≠ " app" := by
  refine ⟨by decide, by decide, by decide⟩

/-- C10 (amended): the derived default title uppercases the first
character and replaces every hyphen occurring after the first character
with a space (a leading hyphen is preserved, since uppercasing leaves it
unchanged and the global hyphen replacement only applies to the tail);
in particular `my-app` resolves to title `My app`, also through
`getProjectInfo` when the title prompt's default is accepted. -/
theorem c10_default_title (s : String) (i : Nat) :
    (defaultTitle s).data.length = s.data.length ∧
    (∀ c (rest : List Char),
      (defaultTitle ⟨c :: rest⟩).data.head? = some c.toUpper) ∧
    (1 ≤ i → (defaultTitle s).data.get? i =
      (s.data.get? i).map (fun d => if d = '-' then ' ' else d)) ∧
    defaultTitle "my-app" = "My app" ∧
    (∀ g ans md, ans.title = none →
      getProjectInfo (some "my-app") false g ans = some md →
      md.title = "My app") := by
  refine ⟨?_, ?_, ?_, by decide, ?_⟩
  · unfold defaultTitle
    cases s.data with
    | nil => rfl
    | cons c rest => simp
  · intro c rest; rfl
  · intro hi
    unfold defaultTitle
    cases s.data with
    | nil => simp
    | cons c rest =>
      obtain ⟨j, rfl⟩ := Nat.exists_eq_add_of_le hi
      rw [Nat.add_comm 1 j]
      simp [List.getElem?_map]
  · intro g ans md ht h
    simp only [getProjectInfo, Bool.false_eq_true, if_neg] at h
    rw [if_neg (by decide : ¬ ("my-app" : String) = "")] at h
    injection h with h
    subst h
    simp [ht]
    decide

/-- Witness for C10 (amended), instantiated at concrete inputs. -/
theorem c10_default_title_witness :
    (defaultTitle "my-app").data.length = "my-app".data.length ∧
    (defaultTitle "my-app").data.get? 2 =
      ("my-app".data.get? 2).map (fun d => if d = '-' then ' ' else d) ∧
    defaultTitle "my-app" = "My app" ∧
    ((⟨[], none, "", none, none⟩ : Answers).title = none →
      getProjectInfo (some "my-app") false ⟨"", ""⟩ ⟨[], none, "", none, none⟩ =
        some ⟨"my-app", "My app", "", "", "MIT", ""⟩ →
      ("My app" : String) = "My app") := by
  have h := c10_default_title "my-app" 2
  exact ⟨h.1, h.2.2.1 (by decide), h.2.2.2.1,
    fun ht he => h.2.2.2.2 ⟨"", ""⟩ ⟨[], none, "", none, none⟩
      ⟨"my-app", "My app", "", "", "MIT", ""⟩ ht he⟩

/-- C4 counterexample: the verbatim (non-template-suffixed) file
`a.template.txt` is NOT copied under its own name — the code removes the
first occurrence of the substring `.template` from every entry name, so
the target entry is created as `a.txt`. -/
theorem c4_counterexample :
    (copyTemplate noFail ⟨"d", "D", "", "", "MIT", ""⟩ [] []
        [.file "a.template.txt" "x" 420]).files =
      [⟨["a.txt"], "x", 420, false⟩] ∧
    ("a.txt" : String) ≠ "a.template.txt" := by
  constructor
  · simp only [copyTemplate, copyEntries, noFail]
    decide
  · decide

/-- C4 (amended): for every entry the target name is the source name with
the FIRST occurrence of the substring `.template` removed — applied to
directories and verbatim files alike — hence names not containing
`.template` do pass through unchanged; verbatim files are copied with
byte-identical content (and preserved mode). -/
theorem c4_name_passthrough :
    (∀ (fails : List String → Bool) vars sp tp name content mode
       (rest : List TEntry),
       fails (sp ++ [name]) = false →
       jsEndsWith name ".template" = false → name ≠ "gitignore" →
       (copyEntries fails vars sp tp (.file name content mode :: rest)).files =
         ⟨tp ++ [targetFileName name], content, mode, false⟩ ::
           (copyEntries fails vars sp tp rest).files) ∧
    (∀ (fails : List String → Bool) vars sp tp name children
       (rest : List TEntry),
       (copyEntries fails vars sp tp (.dir name children :: rest)).files =
         (if fails (sp ++ [name]) then [] else
           (copyEntries fails vars (sp ++ [name])
             (tp ++ [targetFileName name]) children).files)
           ++ (copyEntries fails vars sp tp rest).files) ∧
    (∀ s : String, containsSub (".template" : String).data s.data = false →
       targetFileName s = s) := by
  refine ⟨?_, ?_, ?_⟩
  · intro fails vars sp tp name content mode rest hf ht hg
    simp [copyEntries, hf, ht, hg]
  · intro fails vars sp tp name children rest
    by_cases hf : fails (sp ++ [name]) = true
    · simp [copyEntries, hf]
    · simp only [Bool.not_eq_true] at hf
      simp [copyEntries, hf]
  · intro s hinf
    unfold targetFileName jsReplaceFirst
    have aux : ∀ l : List Char, containsSub (".template" : String).data l = false →
        replaceFirstL ".template".data [] l = l := by
      intro l
      induction l with
      | nil => intro _; rfl
      | cons c rest ih =>
        intro hl
        rw [containsSub, Bool.or_eq_false_iff] at hl
        rw [replaceFirstL, if_neg, ih hl.2]
        rw [hl.1]
        exact Bool.false_ne_true
    rw [aux s.data hinf]

/-- Witness for C4 (amended), instantiated at concrete inputs. -/
theorem c4_name_passthrough_witness :
    (copyEntries noFail demoInfo [] [] [.file "util.js" "x" 420]).files =
      ⟨[] ++ [targetFileName "util.js"], "x", 420, false⟩ ::
        (copyEntries noFail demoInfo [] [] []).files ∧
    targetFileName "util.js" = "util.js" := by
  have h1 := c4_name_passthrough.1 noFail demoInfo [] [] "util.js" "x" 420 []
    (by decide) (by decide) (by decide)
  have h3 := c4_name_passthrough.2.2 "util.js" (by decide)
  exact ⟨h1, h3⟩

/-- Every file written by the substitution branch of the walk whose target
name is the entry-point filename `index.mjs` gets mode `0o755` from the
`fs.chmod` call. -/
theorem copyEntries_exec_bit (fails : List String → Bool)
    (vars : ProjectMetadata) :
    ∀ (sp tp : List String) (l : List TEntry) (f : OutFile),
      f ∈ (copyEntries fails vars sp tp l).files →
      f.fromTemplate = true → f.path.getLast? = some "index.mjs" →
      f.mode = execMode := by
  intro sp tp l
  induction sp, tp, l using copyEntries.induct fails vars with
  | case1 sp tp =>
    intro f hf
    simp [copyEntries] at hf
  | case2 sp tp name children rest ih2 ih1 =>
    intro f hf htpl hlast
    by_cases hfl : fails (sp ++ [name]) = true
    · simp only [copyEntries, hfl, if_true, List.mem_append] at hf
      rcases hf with hf | hf
      · simp at hf
      · exact ih1 f hf htpl hlast
    · simp only [Bool.not_eq_true] at hfl
      simp only [copyEntries, hfl, Bool.false_eq_true, if_false,
        List.mem_append] at hf
      rcases hf with hf | hf
      · exact ih2 f hf htpl hlast
      · exact ih1 f hf htpl hlast
  | case3 sp tp name content mode rest hfl =>
    intro f hf
    simp [copyEntries, hfl] at hf
  | case4 sp tp name content mode rest hfl ih1 =>
    intro f hf htpl hlast
    simp only [Bool.not_eq_true] at hfl
    by_cases hend : jsEndsWith name ".template" = true
    · simp only [copyEntries, hfl, Bool.false_eq_true, if_false, hend,
        if_true, List.mem_cons] at hf
      rcases hf with hf | hf
      · subst hf
        rw [List.getLast?_concat] at hlast
        have hnm : targetFileName name = "index.mjs" := by injection hlast
        simp [hnm]
      · exact ih1 f hf htpl hlast
    · simp only [Bool.not_eq_true] at hend
      by_cases hgi : name = "gitignore"
      · subst hgi
        simp only [copyEntries, hfl, Bool.false_eq_true, if_false, hend,
          List.mem_cons] at hf
        rcases hf with hf | hf
        · subst hf; simp at htpl
        · exact ih1 f hf htpl hlast
      · simp only [copyEntries, hfl, Bool.false_eq_true, if_false, hend,
          hgi, List.mem_cons] at hf
        rcases hf with hf | hf
        · subst hf; simp at htpl
        · exact ih1 f hf htpl hlast

/-- C5: every file produced by the template-marker branch of
materialization whose marker-stripped target name is the entry-point
filename `index.mjs` carries mode `0o755`, whose owner-execute bit is
set. -/
theorem c5_entry_point_executable (fails : List String → Bool)
    (vars : ProjectMetadata) (sp tp : List String) (l : List TEntry)
    (f : OutFile) (hf : f ∈ (copyTemplate fails vars sp tp l).files)
    (htpl : f.fromTemplate = true)
    (hlast : f.path.getLast? = some "index.mjs") :
    f.mode = execMode ∧ f.mode.testBit 6 = true := by
  unfold copyTemplate at hf
  by_cases hfl : fails sp = true
  · rw [if_pos hfl] at hf
    simp at hf
  · rw [if_neg hfl] at hf
    have := copyEntries_exec_bit fails vars sp tp l f hf htpl hlast
    exact ⟨this, by rw [this]; decide⟩

/-- Witness for C5 at a concrete template tree. -/
theorem c5_entry_point_executable_witness :
    (⟨["index.mjs"], "hello", execMode, true⟩ : OutFile).mode = execMode ∧
    (⟨["index.mjs"], "hello", execMode, true⟩ : OutFile).mode.testBit 6 = true := by
  refine c5_entry_point_executable noFail demoInfo [] [] demoTpl
    ⟨["index.mjs"], "hello", execMode, true⟩ ?_ rfl rfl
  simp only [copyTemplate, copyEntries, noFail, demoTpl, demoInfo]
  decide

/-- C6: a template file named exactly `gitignore` is materialized as
`.gitignore` — a leading dot is added — with content equal to the source
content, no variable substitution applied (the written content does not
depend on the metadata record). -/
theorem c6_gitignore_rename (fails : List String → Bool)
    (vars vars' : ProjectMetadata) (sp tp : List String) (content : String)
    (mode : Nat) (rest : List TEntry)
    (hf : fails (sp ++ ["gitignore"]) = false) :
    ((copyEntries fails vars sp tp
        (.file "gitignore" content mode :: rest)).files).head? =
      some ⟨tp ++ [".gitignore"], content, writeFileMode, false⟩ ∧
    ((copyEntries fails vars sp tp
        (.file "gitignore" content mode :: rest)).files).head? =
      ((copyEntries fails vars' sp tp
        (.file "gitignore" content mode :: rest)).files).head? := by
  have hend : jsEndsWith "gitignore" ".template" = false := by decide
  constructor
  · simp [copyEntries, hf, hend]
  · simp [copyEntries, hf, hend]

/-- Witness for C6 at a concrete input. -/
theorem c6_gitignore_rename_witness :
    ((copyEntries noFail demoInfo [] []
        [.file "gitignore" "node_modules" 420]).files).head? =
      some ⟨[".gitignore"], "node_modules", writeFileMode, false⟩ :=
  (c6_gitignore_rename noFail demoInfo demoInfo [] [] "node_modules" 420 []
    (by decide)).1

/-- C1 counterexample: with an EXISTING BUT EMPTY target directory, the
command does not proceed to materialization — it terminates with exit
code 1 having written nothing — although the claim requires
materialization to proceed in exactly this case. -/
theorem c1_counterexample :
    (createCommand noFail (some []) demoTpl demoInfo).materialized = false ∧
    (createCommand noFail (some []) demoTpl demoInfo).exitCode = 1 ∧
    (createCommand noFail (some []) demoTpl demoInfo).files = [] ∧
    (createCommand noFail (some []) demoTpl demoInfo).successLogged = false :=
  ⟨rfl, rfl, rfl, rfl⟩

/-- C1 (amended): materialization proceeds if and only if the target
directory does not exist at all; whenever it exists — empty or
non-empty — the command fails fatally with exit code 1 before any file or
directory is written into it (only the logged message distinguishes the
two cases). -/
theorem c1_target_conflict (fails : List String → Bool)
    (target : Option (List String)) (tpl : List TEntry)
    (info : ProjectMetadata) :
    ((createCommand fails target tpl info).materialized = true ↔
      target = none) ∧
    (∀ l, target = some l →
      (createCommand fails target tpl info).exitCode = 1 ∧
      (createCommand fails target tpl info).files = [] ∧
      (createCommand fails target tpl info).successLogged = false) := by
  cases target with
  | none => simp [createCommand]
  | some l => simp [createCommand]

/-- Witness for C1 (amended) at a concrete non-empty existing target. -/
theorem c1_target_conflict_witness :
    (createCommand noFail (some ["junk.txt"]) demoTpl demoInfo).exitCode = 1 ∧
    (createCommand noFail (some ["junk.txt"]) demoTpl demoInfo).files = [] ∧
    (createCommand noFail (some ["junk.txt"]) demoTpl demoInfo).successLogged
      = false :=
  (c1_target_conflict noFail (some ["junk.txt"]) demoTpl demoInfo).2
    ["junk.txt"] rfl

/-- A `copyTemplate` invocation that returns `false` has logged an error:
its own `catch` is the only way `false` is produced at the top level of
the walk. -/
theorem copyEntries_false_logs (fails : List String → Bool)
    (vars : ProjectMetadata) :
    ∀ (sp tp : List String) (l : List TEntry),
      (copyEntries fails vars sp tp l).ok = false →
      (copyEntries fails vars sp tp l).errLogged = true := by
  intro sp tp l
  induction sp, tp, l using copyEntries.induct fails vars with
  | case1 sp tp =>
    intro h
    simp [copyEntries] at h
  | case2 sp tp name children rest ih2 ih1 =>
    intro h
    simp only [copyEntries] at h ⊢
    rw [ih1 h]
    simp
  | case3 sp tp name content mode rest hfl =>
    intro _
    simp [copyEntries, hfl]
  | case4 sp tp name content mode rest hfl ih1 =>
    intro h
    simp only [Bool.not_eq_true] at hfl
    simp only [copyEntries, hfl, Bool.false_eq_true, if_false] at h ⊢
    exact ih1 h

/-- C2 counterexample: in an environment where every I/O operation fails,
the walk logs an error and `copyTemplate` returns `false`, yet
`createCommand` still terminates with exit code 0 and logs the success
banner — the failure is reported but NOT propagated as a fatal error. -/
theorem c2_counterexample :
    (createCommand allFail none demoTpl demoInfo).copyErrLogged = true ∧
    (createCommand allFail none demoTpl demoInfo).copyOk = false ∧
    (createCommand allFail none demoTpl demoInfo).exitCode = 0 ∧
    (createCommand allFail none demoTpl demoInfo).successLogged = true :=
  ⟨rfl, rfl, rfl, rfl⟩

/-- C2 (amended): an I/O failure during the walk is always surfaced — a
failing `copyTemplate` invocation logs an error and returns `false` — but
the failure is never propagated: whatever the I/O environment,
`createCommand` on a fresh target always terminates with exit code 0 and
logs the success banner, continuing past materialization. -/
theorem c2_walk_errors_not_fatal (fails : List String → Bool)
    (tpl : List TEntry) (info : ProjectMetadata) :
    ((createCommand fails none tpl info).exitCode = 0 ∧
     (createCommand fails none tpl info).successLogged = true) ∧
    ((copyTemplate fails info [] [] tpl).ok = false →
      (copyTemplate fails info [] [] tpl).errLogged = true) := by
  constructor
  · exact ⟨rfl, rfl⟩
  · intro h
    unfold copyTemplate at h ⊢
    by_cases hfl : fails [] = true
    · simp [hfl]
    · simp only [Bool.not_eq_true] at hfl
      simp only [hfl, Bool.false_eq_true, if_false] at h ⊢
      exact copyEntries_false_logs fails info [] [] tpl h

/-- Witness for C2 (amended) at a concrete failing environment. -/
theorem c2_walk_errors_not_fatal_witness :
    ((createCommand allFail none [TEntry.file "a.txt" "x" 420] demoInfo).exitCode
        = 0 ∧
     (createCommand allFail none [TEntry.file "a.txt" "x" 420]
        demoInfo).successLogged = true) ∧
    (copyTemplate allFail demoInfo [] [] [TEntry.file "a.txt" "x" 420]).errLogged
      = true := by
  have h := c2_walk_errors_not_fatal allFail [TEntry.file "a.txt" "x" 420]
    demoInfo
  exact ⟨h.1, h.2 rfl⟩

end CliStarter
